import Mathlib

/-!
Verification of the f18 front-end semantic/structural analysis core:
the DO-loop canonicalization pass (lib/semantics/canonicalize-do.cc),
the nested-IF-statement checker (IfStmtChecker::Leave), the
DO CONCURRENT exit-legality rule (C1167, exercised by the
do_concurrent_test* subroutines), and the TokenSequence buffer
(lib/parser/token-sequence.h).

The parse-tree fragments used by these passes are embedded shallowly:
each C++ parse-tree variant relevant to the passes becomes a Lean
inductive constructor, and the in-place mutation of a Block by
CanonicalizationOfDoLoops::Post becomes an explicit state-passing
function over lists.  CHECK failures and common::die become values of
an explicit error type in an Except result.
-/

namespace F18

/-- Fortran statement label (`Label` in the parse tree): a positive
integer; the value 0 is used by the helper functions of
canonicalize-do.cc to mean "no label of interest". -/
abbrev Label := Nat

/-- Construct names are treated opaquely by all the passes here. -/
abbrev Name := String

/-- The `LoopControl` payload is moved wholesale by the canonicalizer and never
inspected, so it is embedded as an opaque payload. -/
abbrev LoopControl := Nat

/-- The `std::tuple<std::optional<Name>, Label, std::optional<LoopControl>>`
of `LabelDoStmt`: the optional construct name, the requested terminal
label, and the optional loop control. -/
structure LabelDoStmt where
  name : Option Name
  label : Label
  control : Option LoopControl
  deriving DecidableEq, Repr

/-- The `std::tuple<std::optional<Name>, std::optional<LoopControl>>` of
`NonLabelDoStmt`. -/
structure NonLabelDoStmt where
  name : Option Name
  control : Option LoopControl
  deriving DecidableEq, Repr

/-- Embeds `EndDoStmt`: a wrapper over an optional construct name. -/
structure EndDoStmt where
  name : Option Name
  deriving DecidableEq, Repr

/-! The parse-tree fragment the passes inspect.  `Statement<T>`
wrappers are flattened into (label, source, payload) constructor
fields; `source` is the opaque `CharBlock` provenance handle, with 0
standing for the default-constructed (empty) handle.  Variants of the
C++ unions that none of the passes distinguish are collapsed into
`other` constructors carrying an opaque tag. -/

mutual

/-- Embeds `ActionStmt`: the checked passes distinguish only `ContinueStmt`
and `common::Indirection<IfStmt>`; every other alternative is opaque. -/
inductive ActionStmt : Type where
  | continueStmt : ActionStmt
  | ifStmt (s : IfStmt) : ActionStmt
  | otherAction (tag : Nat) : ActionStmt

/-- Embeds `IfStmt`: `std::tuple<ScalarLogicalExpr,
UnlabeledStatement<ActionStmt>>`.  The scalar expression is opaque;
`bodySource` is the `source` member of the `UnlabeledStatement`
holding the single action statement. -/
inductive IfStmt : Type where
  | mk (cond : Nat) (bodySource : Nat) (body : ActionStmt) : IfStmt

/-- Embeds `ExecutableConstruct`: the variants inspected by
canonicalize-do.cc, plus an opaque remainder. -/
inductive ExecutableConstruct : Type where
  | action (label : Option Label) (source : Nat) (stmt : ActionStmt) :
      ExecutableConstruct
  | doConstr (d : DoConstruct) : ExecutableConstruct
  | labelDoStmt (label : Option Label) (source : Nat) (stmt : LabelDoStmt) :
      ExecutableConstruct
  | endDoStmt (label : Option Label) (source : Nat) (stmt : EndDoStmt) :
      ExecutableConstruct
  | otherConstruct (tag : Nat) : ExecutableConstruct

/-- Embeds `DoConstruct`: `std::tuple<Statement<NonLabelDoStmt>, Block,
Statement<EndDoStmt>>`, with both `Statement` wrappers flattened. -/
inductive DoConstruct : Type where
  | mk (doLabel : Option Label) (doSource : Nat) (doStmt : NonLabelDoStmt)
       (body : List ExecutionPartConstruct)
       (endLabel : Option Label) (endSource : Nat) (endStmt : EndDoStmt) :
      DoConstruct

/-- Embeds `ExecutionPartConstruct`: either an `ExecutableConstruct` or one of
the alternatives (format/entry/data statements) no pass here reads. -/
inductive ExecutionPartConstruct : Type where
  | executable (c : ExecutableConstruct) : ExecutionPartConstruct
  | otherPart (tag : Nat) : ExecutionPartConstruct

end

/-- Embeds `Block`: an ordered sequence of execution-part constructs. -/
abbrev Block := List ExecutionPartConstruct

namespace DoConstruct

def doLabel : DoConstruct → Option Label
  | .mk l _ _ _ _ _ _ => l

def doStmt : DoConstruct → NonLabelDoStmt
  | .mk _ _ s _ _ _ _ => s

def body : DoConstruct → Block
  | .mk _ _ _ b _ _ _ => b

def endLabel : DoConstruct → Option Label
  | .mk _ _ _ _ l _ _ => l

def endStmt : DoConstruct → EndDoStmt
  | .mk _ _ _ _ _ _ s => s

end DoConstruct

/-! ## The canonicalizer (canonicalize-do.cc), embedded -/

/-- Embeds `GetLabelDoLoopLabel`: when an execution part construct is a label
DO statement, return its (requested terminal) label, else zero. -/
def GetLabelDoLoopLabel : ExecutionPartConstruct → Label
  | .executable (.labelDoStmt _ _ s) => s.label
  | _ => 0

/-- The CHECK failures and the `common::die` call of
canonicalize-do.cc, as explicit error values.  `loopsRemainStacked`
carries the diagnostic's payload: how many loops remain stacked at the
end of the block and the topmost pending (requested terminal) label. -/
inductive CanonError : Type where
  | checkUnlabeledEndDo : CanonError
  | checkLabelPositive : CanonError
  | checkPendingNonEmpty : CanonError
  | checkTopLabelMatch : CanonError
  | loopsRemainStacked (count : Nat) (topLabel : Label) : CanonError
  deriving DecidableEq, Repr

/-- Embeds `ReplaceEndDoStmt`: when an executable construct is a "bare" END DO
statement, replace it with a labeled CONTINUE statement so that the
label remains defined, returning the label; otherwise return the
construct unchanged with label zero.  The two CHECKs
(`endDo->label.has_value()` and `label > 0`) become errors.  The
`Statement<ActionStmt>{label, ContinueStmt{}}` constructed by the C++
has a default (empty) source, embedded as 0. -/
def ReplaceEndDoStmt :
    ExecutableConstruct → Except CanonError (ExecutableConstruct × Label)
  | .endDoStmt lab _ _ =>
    match lab with
    | none => .error .checkUnlabeledEndDo
    | some l =>
      if 0 < l then .ok (.action (some l) 0 .continueStmt, l)
      else .error .checkLabelPositive
  | c => .ok (c, 0)

/-- Embeds `GetPossibleLoopEndLabel`: if an executable construct is an action
statement with a label, or a DO construct whose END DO has a label,
return the label, else zero. -/
def GetPossibleLoopEndLabel : ExecutableConstruct → Label
  | .action (some l) _ _ => l
  | .doConstr d => (d.endLabel).getD 0
  | _ => 0

/-- A pending label DO loop: the C++ stores a `Block::iterator` to the
label DO statement; since statements are only pushed when
`GetLabelDoLoopLabel` is positive, the referenced construct is always
a `Statement<common::Indirection<LabelDoStmt>>`, stored here as its
flattened fields.  `body` accumulates the statements encountered after
the header, which in the C++ sit between the stored iterator and the
scan position of the block. -/
structure PendingLoop where
  stmtLabel : Option Label
  source : Nat
  doStmt : LabelDoStmt
  body : Block

/-- The scan state of `CanonicalizationOfDoLoops::Post`: the prefix of
the block that precedes every pending header (`out`), and the pending
loop stack, innermost (most recently pushed, `pendingDoLoopStack.back()`)
first. -/
structure CanonState where
  out : Block
  pending : List PendingLoop

/-- Append a statement at the current scan position: in the C++ the
statement simply stays in the block; here it lands in the body
accumulated for the innermost pending loop, or in the finished prefix
when no loop is pending. -/
def pushStmt (st : CanonState) (e : ExecutionPartConstruct) : CanonState :=
  match st.pending with
  | [] => { st with out := st.out ++ [e] }
  | f :: rest => { st with pending := { f with body := f.body ++ [e] } :: rest }

/-- Embeds `MakeBlockDoLoop`: repackage a pending label DO statement and its
extracted loop body as a block DO/END DO construct with the same
construct name, loop control, and body; both new `Statement` wrappers
are built with `std::nullopt` labels (and default sources), and the new
`EndDoStmt` has no construct name. -/
def MakeBlockDoLoop (f : PendingLoop) (body : Block) : DoConstruct :=
  .mk none 0 { name := f.doStmt.name, control := f.doStmt.control }
    body none 0 { name := none }

/-- The inner conversion loop of `CanonicalizationOfDoLoops::Post`
(lines 135–143): rewrite the label DO loops terminated by `label` from
innermost to outermost, stopping at the first pending loop whose
requested label differs.  `e` is the construct currently occupying the
scan position (initially the terminal statement itself; after a
conversion, the `DoConstruct` that replaced the innermost header):
closing a pending loop extracts the statements after its header up to
and including the scan position — `splice(..., ++doStmt, next)`, here
`f.body ++ [e]` — and repackages them via `MakeBlockDoLoop` at the
header's position.  When the loop stops, the scan position's construct
stays in the block: in the enclosing pending body, or in the finished
prefix when nothing is pending. -/
def closeLoops (label : Label) (out : Block) (e : ExecutionPartConstruct) :
    List PendingLoop → Block × List PendingLoop
  | [] => (out ++ [e], [])
  | f :: rest =>
    if f.doStmt.label = label then
      closeLoops label out
        (.executable (.doConstr (MakeBlockDoLoop f (f.body ++ [e])))) rest
    else (out, { f with body := f.body ++ [e] } :: rest)

/-- The two CHECKs guarding a replaced END DO statement
(`CHECK(!pendingDoLoopStack.empty())` and
`CHECK(endDoLabel == GetLabelDoLoopLabel(*pendingDoLoopStack.back()))`),
applied only when `ReplaceEndDoStmt` returned a positive label. -/
def endDoCheck (endDoLabel : Label) (pending : List PendingLoop) :
    Except CanonError Unit :=
  if 0 < endDoLabel then
    match pending with
    | [] => .error .checkPendingNonEmpty
    | f :: _ =>
      if endDoLabel = f.doStmt.label then .ok ()
      else .error .checkTopLabelMatch
  else .ok ()

/-- One iteration of the scan loop of `CanonicalizationOfDoLoops::Post`
over the next execution part construct. -/
def canonicalizeStep (st : CanonState) (e : ExecutionPartConstruct) :
    Except CanonError CanonState :=
  if 0 < GetLabelDoLoopLabel e then
    -- At a label DO statement: push its position upon the stack.
    match e with
    | .executable (.labelDoStmt lab src s) =>
      .ok { st with pending := ⟨lab, src, s, []⟩ :: st.pending }
    | _ => .ok st
  else
    match e with
    | .executable c =>
      match ReplaceEndDoStmt c with
      | .error err => .error err
      | .ok (c₂, endDoLabel) =>
        match endDoCheck endDoLabel st.pending with
        | .error err => .error err
        | .ok _ =>
          if 0 < GetPossibleLoopEndLabel c₂ then
            .ok ⟨(closeLoops (GetPossibleLoopEndLabel c₂) st.out
                    (.executable c₂) st.pending).1,
                 (closeLoops (GetPossibleLoopEndLabel c₂) st.out
                    (.executable c₂) st.pending).2⟩
          else
            .ok (pushStmt st (.executable c₂))
    | _ => .ok (pushStmt st e)

/-- The scan loop of `CanonicalizationOfDoLoops::Post` over a block. -/
def canonicalizeBlockAux (st : CanonState) :
    Block → Except CanonError CanonState
  | [] => .ok st
  | e :: rest =>
    match canonicalizeStep st e with
    | .error err => .error err
    | .ok st₂ => canonicalizeBlockAux st₂ rest

/-- Embeds `CanonicalizationOfDoLoops::Post(Block &)`: convert labeled DO
loops in a block to DO/END DO block-structured loops.  If loops remain
stacked after the scan, `common::die` fires with the stack size and
the topmost pending label. -/
def canonicalizeBlock (b : Block) : Except CanonError Block :=
  match canonicalizeBlockAux ⟨[], []⟩ b with
  | .error err => .error err
  | .ok st =>
    match st.pending with
    | [] => .ok st.out
    | f :: _ =>
      .error (.loopsRemainStacked st.pending.length f.doStmt.label)

/-! ## Spec-side description of the pop-and-extract step

These two definitions follow the specification's words for step 4 of
the canonicalization algorithm; the refinement theorem for the step
compares them with the embedded code above. -/

/-- Per the spec: for one popped pending loop, "replace the header
position with a single new block-structured loop node wrapping"
the extracted block, "preserving the loop's optional name and
loop-control clause and discarding only the now-redundant label":
the new node carries no label anywhere and no construct name on its
END DO. -/
def specWrapLoop (f : PendingLoop) (extracted : Block) :
    ExecutionPartConstruct :=
  .executable (.doConstr (.mk none 0
    { name := f.doStmt.name, control := f.doStmt.control }
    extracted none 0 { name := none }))

/-- Per the spec: pop the matching pending loops "from the top
(innermost) down"; each pop extracts "the contiguous run of statements
between its header (exclusive) and the terminal statement's position
(inclusive)" — the accumulated body followed by whatever now occupies
the terminal position — and the wrapped node becomes the construct at
that position for the next (outer) pop. -/
def specPopAll (terminal : ExecutionPartConstruct) :
    List PendingLoop → ExecutionPartConstruct
  | [] => terminal
  | f :: rest => specPopAll (specWrapLoop f (f.body ++ [terminal])) rest

/-! ## Label definedness in a tree -/

mutual

/-- Whether some statement of the construct carries label `L`. -/
def labelDefinedInEPC (L : Label) : ExecutionPartConstruct → Bool
  | .executable c => labelDefinedInEC L c
  | .otherPart _ => false

def labelDefinedInEC (L : Label) : ExecutableConstruct → Bool
  | .action lab _ _ => lab == some L
  | .doConstr (.mk dl _ _ body el _ _) =>
      dl == some L || el == some L || labelDefinedInList L body
  | .labelDoStmt lab _ _ => lab == some L
  | .endDoStmt lab _ _ => lab == some L
  | .otherConstruct _ => false

def labelDefinedInList (L : Label) : List ExecutionPartConstruct → Bool
  | [] => false
  | e :: rest => labelDefinedInEPC L e || labelDefinedInList L rest

end

/-- Whether label `L` is defined somewhere in the scanned part of the
canonicalization state: in the finished prefix or in a pending loop's
accumulated body.  (The pending headers' own statement labels are
discarded by `MakeBlockDoLoop`, so they are deliberately not counted.) -/
def labelDefinedInState (L : Label) (st : CanonState) : Bool :=
  labelDefinedInList L st.out ||
    st.pending.any fun f => labelDefinedInList L f.body

/-! ## Canonical trees and the bottom-up walk -/

mutual

/-- No legacy label DO statement and no bare END DO statement occurs
anywhere in the construct. -/
def isCanonicalEPC : ExecutionPartConstruct → Bool
  | .executable c => isCanonicalEC c
  | .otherPart _ => true

def isCanonicalEC : ExecutableConstruct → Bool
  | .action _ _ _ => true
  | .doConstr (.mk _ _ _ body _ _ _) => isCanonicalList body
  | .labelDoStmt _ _ _ => false
  | .endDoStmt _ _ _ => false
  | .otherConstruct _ => true

def isCanonicalList : List ExecutionPartConstruct → Bool
  | [] => true
  | e :: rest => isCanonicalEPC e && isCanonicalList rest

end

mutual

/-- The `Walk(program, mutator)` driver applies
`CanonicalizationOfDoLoops::Post` to every `Block`, innermost blocks
first; the recursion below reproduces that bottom-up order for the
block nested in a DO construct. -/
def canonicalizeDeepEPC :
    ExecutionPartConstruct → Except CanonError ExecutionPartConstruct
  | .executable c =>
    match canonicalizeDeepEC c with
    | .error err => .error err
    | .ok c₂ => .ok (.executable c₂)
  | .otherPart t => .ok (.otherPart t)

def canonicalizeDeepEC :
    ExecutableConstruct → Except CanonError ExecutableConstruct
  | .action lab src a => .ok (.action lab src a)
  | .doConstr (.mk dl ds dst body el es est) =>
    match canonicalizeDeepList body with
    | .error err => .error err
    | .ok body₂ =>
      match canonicalizeBlock body₂ with
      | .error err => .error err
      | .ok body₃ => .ok (.doConstr (.mk dl ds dst body₃ el es est))
  | .labelDoStmt lab src s => .ok (.labelDoStmt lab src s)
  | .endDoStmt lab src s => .ok (.endDoStmt lab src s)
  | .otherConstruct t => .ok (.otherConstruct t)

def canonicalizeDeepList :
    List ExecutionPartConstruct → Except CanonError (List ExecutionPartConstruct)
  | [] => .ok []
  | e :: rest =>
    match canonicalizeDeepEPC e with
    | .error err => .error err
    | .ok e₂ =>
      match canonicalizeDeepList rest with
      | .error err => .error err
      | .ok rest₂ => .ok (e₂ :: rest₂)

end

/-- The whole-tree canonicalization of one block: canonicalize every
nested block bottom-up, then run the scan over this block itself. -/
def canonicalizeDeepBlock (b : Block) : Except CanonError Block :=
  match canonicalizeDeepList b with
  | .error err => .error err
  | .ok b₂ => canonicalizeBlock b₂

/-! ## The construct stack model and the exit legality check

The control-transfer legality checker itself is not among the sampled
source files; only its test subroutines (`do_concurrent_test1` through
`do_concurrent_test4`, constraint C1167) are.  The definitions below
are therefore modelled from the specification's construct stack model,
with the diagnostic multiplicity fixed by the tests' expected-error
annotations. -/

/-- Construct kinds distinguished by the stack model: ordinary DO,
DO CONCURRENT, IF construct, and everything else. -/
inductive FrameKind : Type where
  | doOrdinary : FrameKind
  | doConcurrent : FrameKind
  | ifConstruct : FrameKind
  | otherKind : FrameKind
  deriving DecidableEq, Repr

/-- Modelled from the spec: a Construct Frame of the Construct Stack
Model — construct kind and optional name; the escape-restricted flag
is derived ("true exactly for concurrent-loop frames"). -/
structure Frame where
  kind : FrameKind
  name : Option Name
  deriving DecidableEq, Repr

/-- A frame of loop kind (ordinary or concurrent DO). -/
def Frame.loopKind (f : Frame) : Bool :=
  f.kind == .doOrdinary || f.kind == .doConcurrent

/-- Modelled from the spec: the escape-restricted flag, "true exactly
for concurrent-loop frames". -/
def Frame.escapeRestricted (f : Frame) : Bool :=
  f.kind == .doConcurrent

/-- Whether a frame is the resolution target of an EXIT statement:
a named EXIT targets the nearest frame with that name, an unnamed EXIT
the nearest loop-kind frame. -/
def frameMatches (target : Option Name) (f : Frame) : Bool :=
  match target with
  | some n => f.name == some n
  | none => f.loopKind

/-- Modelled from the spec: `resolve(name_or_none)` of the Construct
Stack Model, returning the 0-based depth of the target frame from the
innermost frame outward, or `none` when no frame matches.  The stack
is listed innermost frame first. -/
def resolveDepth : List Frame → Option Name → Option Nat
  | [], _ => none
  | f :: rest, target =>
    if frameMatches target f then some 0
    else (resolveDepth rest target).map (· + 1)

/-- Modelled from the spec: the missing exit-legality checker.  For
one EXIT statement it walks the enclosing-construct stack (innermost
first) out to the statement's resolved target and returns the number
of "EXIT must not leave a DO CONCURRENT statement" diagnostics it
emits: one for each escape-restricted (DO CONCURRENT) frame the exit
belongs to, the target frame included — constraint C1167 forbids an
exit that "belongs to that construct or an outer construct", and the
expected-error annotations of do_concurrent_test1–4 show one
diagnostic per concurrent frame so crossed.  `none` when the target
does not resolve. -/
def exitCheck : List Frame → Option Name → Option Nat
  | [], _ => none
  | f :: rest, target =>
    if frameMatches target f then
      some (if f.escapeRestricted then 1 else 0)
    else
      (exitCheck rest target).map
        fun n => n + (if f.escapeRestricted then 1 else 0)

/-- Enclosing-construct stack at the unnamed `exit` of
`do_concurrent_test2`: directly inside the named concurrent loop
`mydoc`. -/
def test2Stack : List Frame := [⟨.doConcurrent, some "mydoc"⟩]

/-- Enclosing-construct stack at the two EXIT statements of
`do_concurrent_test4`: an unnamed DO CONCURRENT, inside the named
DO CONCURRENT `mydoc`, inside the IF construct `mytest4`. -/
def test4Stack : List Frame :=
  [⟨.doConcurrent, none⟩, ⟨.doConcurrent, some "mydoc"⟩,
   ⟨.ifConstruct, some "mytest4"⟩]

/-- The test file's expectation for `if (j==10) exit mytest4` in
`do_concurrent_test4`: two consecutive
"!ERROR: EXIT must not leave a DO CONCURRENT statement" annotations
precede that one statement, so the checker is expected to emit two
diagnostics for it — the statement's transfer crosses two
concurrent-loop boundaries. -/
def test4ExitMytest4ExpectedErrors : Nat := 2

/-! ## The nested-IF-statement checker (check-if-stmt.cc) -/

/-- A diagnostic record: the source handle passed to `context_.Say`
and the message text. -/
structure Diagnostic where
  source : Nat
  message : String
  deriving DecidableEq, Repr

/-- The message of constraint C1143. -/
def ifMsg : String := "IF statement is not allowed in IF statement"

/-- Embeds `IfStmtChecker::Leave(const parser::IfStmt &)`: fetch the
`UnlabeledStatement<ActionStmt>` body of the IF statement; if the
action it holds is itself an IF statement, say the C1143 message at
`body.source` — the source of that nested action statement. -/
def ifStmtCheckerLeave : IfStmt → List Diagnostic
  | .mk _ bodySource body =>
    match body with
    | .ifStmt _ => [⟨bodySource, ifMsg⟩]
    | _ => []

mutual

/-- The checker's walk over a statement: `Leave` is invoked on every
`IfStmt` node of the tree (post-order); diagnostics accumulate. -/
def checkIfStmtsInAction : ActionStmt → List Diagnostic
  | .ifStmt s => checkIfStmtsInIf s
  | .continueStmt => []
  | .otherAction _ => []

def checkIfStmtsInIf : IfStmt → List Diagnostic
  | .mk cond bodySource body =>
    checkIfStmtsInAction body ++
      ifStmtCheckerLeave (.mk cond bodySource body)

end

/-- The checker's walk over one action statement in a block. -/
def checkIfStmtsInEC : ExecutableConstruct → List Diagnostic
  | .action _ _ a => checkIfStmtsInAction a
  | _ => []

/-! ## The token/provenance buffer (token-sequence.h) -/

/-- Embeds `TokenSequence`: the four data members of the class.  `start`
holds each closed token's starting offset into `chars`; `nextStart` is
the start of the currently open token; `provenances` embeds
`OffsetToProvenanceMappings` as the sequence of (provenance, length)
ranges put into it, one per buffered character. -/
structure TokenSequence where
  start : List Nat
  nextStart : Nat
  chars : List Char
  provenances : List (Nat × Nat)
  deriving DecidableEq, Repr

/-- A default-constructed `TokenSequence`. -/
def TokenSequence.empty : TokenSequence := ⟨[], 0, [], []⟩

/-- Embeds `PutNextTokenChar`: append one character to the buffer together
with a one-character provenance range. -/
def PutNextTokenChar (ts : TokenSequence) (ch : Char) (p : Nat) :
    TokenSequence :=
  { ts with
    chars := ts.chars ++ [ch]
    provenances := ts.provenances ++ [(p, 1)] }

/-- Embeds `CloseToken`: record the open token's start and open a new token
at the current end of the character buffer. -/
def CloseToken (ts : TokenSequence) : TokenSequence :=
  { ts with
    start := ts.start ++ [ts.nextStart]
    nextStart := ts.chars.length }

/-- Embeds `ReopenLastToken`: `nextStart_ = start_.back(); start_.pop_back();`
— the most recently closed token is removed from the token partition
and becomes the open token again.  (`back()` on an empty vector is
undefined in C++; the embedding leaves the empty sequence unchanged.) -/
def ReopenLastToken (ts : TokenSequence) : TokenSequence :=
  match ts.start.getLast? with
  | some s => { ts with nextStart := s, start := ts.start.dropLast }
  | none => ts

/-- Embeds `SizeInTokens`: the number of closed tokens. -/
def SizeInTokens (ts : TokenSequence) : Nat := ts.start.length

/-- Embeds `SizeInChars`: the number of buffered characters. -/
def SizeInChars (ts : TokenSequence) : Nat := ts.chars.length

/-- Embeds `TokenBytes`: the extent of token `i`, measured to the next
token's start or to the end of the buffer. -/
def TokenBytes (ts : TokenSequence) (i : Nat) : Nat :=
  (if i + 1 ≥ ts.start.length then ts.chars.length
   else ts.start.getD (i + 1) 0) - ts.start.getD i 0

/-- Embeds `TokenAt`: the text of token `i` (`start_.at(token)` throws on an
out-of-range index, embedded as `none`). -/
def TokenAt (ts : TokenSequence) (i : Nat) : Option (List Char) :=
  match ts.start.get? i with
  | none => none
  | some s => some ((ts.chars.drop s).take (TokenBytes ts i))

/-- Embeds `CharAt`: the character at offset `j` (`at` throws out of range,
embedded as `none`). -/
def CharAt (ts : TokenSequence) (j : Nat) : Option Char :=
  ts.chars.get? j

/-- Provenance lookup by character offset: walk the put ranges.
Modelled from the spec: "location lookup by token index or character
offset" (the `OffsetToProvenanceMappings` body is not among the
sampled sources). -/
def provenanceAt : List (Nat × Nat) → Nat → Option Nat
  | [], _ => none
  | (p, len) :: rest, j =>
    if j < len then some (p + j) else provenanceAt rest (j - len)

/-- Embeds `GetTokenProvenance`: provenance of byte `offset` of token `i`. -/
def GetTokenProvenance (ts : TokenSequence) (i offset : Nat) : Option Nat :=
  provenanceAt ts.provenances (ts.start.getD i 0 + offset)

/-! ## Concrete constructs used by witnesses and counterexamples -/

/-- A label DO statement header requesting terminal label 10, named
`outer`, with a loop control. -/
def exHeader10 : ExecutionPartConstruct :=
  .executable (.labelDoStmt none 0 ⟨some "outer", 10, some 1⟩)

/-- An unlabeled ordinary action statement. -/
def exStmt : ExecutionPartConstruct :=
  .executable (.action none 3 (.otherAction 1))

/-- A bare END DO statement carrying label 10. -/
def exEndDo10 : ExecutionPartConstruct :=
  .executable (.endDoStmt (some 10) 4 ⟨none⟩)

/-- The labeled CONTINUE statement that `ReplaceEndDoStmt` makes out
of `exEndDo10`. -/
def exCont10 : ExecutionPartConstruct :=
  .executable (.action (some 10) 0 .continueStmt)

/-- The source handle of the example outer IF statement (its
`Statement<ActionStmt>` wrapper). -/
def exOuterIfSource : Nat := 1

/-- The source handle of the outer IF statement's nested action
statement (the inner IF statement). -/
def exInnerIfSource : Nat := 2

/-- An inner one-line IF whose action is a plain action statement. -/
def exInnerIf : IfStmt := .mk 6 5 (.otherAction 0)

/-- The outer one-line IF: its single action statement (at source
`exInnerIfSource`) is itself the one-line IF `exInnerIf`. -/
def exOuterIf : IfStmt := .mk 7 exInnerIfSource (.ifStmt exInnerIf)

/-- The outer IF as a statement in a block, at source
`exOuterIfSource`. -/
def exOuterIfStmt : ExecutableConstruct :=
  .action none exOuterIfSource (.ifStmt exOuterIf)

/-- The block that canonicalizing `[exHeader10, exEndDo10]` produces:
one block-structured DO construct named `outer` whose body is the
labeled CONTINUE replacing the END DO. -/
def exConverted10 : Block :=
  [.executable (.doConstr (.mk none 0 ⟨some "outer", some 1⟩
    [exCont10] none 0 ⟨none⟩))]

/-! # Theorems -/

/-- The conversion loop's behavior on a pending stack split as a run
of loops requesting `L` followed by a stack whose top (if any) does
not: it realizes exactly the spec-side `specPopAll` description and
leaves the non-matching part of the stack alone. -/
theorem closeLoops_spec (L : Label) (out : Block)
    (e : ExecutionPartConstruct) (matched rest : List PendingLoop)
    (hm : ∀ f ∈ matched, f.doStmt.label = L)
    (hr : ∀ g gs, rest = g :: gs → g.doStmt.label ≠ L) :
    closeLoops L out e (matched ++ rest) =
      ((pushStmt ⟨out, rest⟩ (specPopAll e matched)).out,
       (pushStmt ⟨out, rest⟩ (specPopAll e matched)).pending) := by
  induction matched generalizing e with
  | nil =>
    cases rest with
    | nil => simp [closeLoops, pushStmt, specPopAll]
    | cons g gs =>
      have hg := hr g gs rfl
      simp [closeLoops, pushStmt, specPopAll, frameMatches, hg]
  | cons f fs ih =>
    have hf : f.doStmt.label = L := hm f (List.mem_cons_self f fs)
    have hfs : ∀ x ∈ fs, x.doStmt.label = L :=
      fun x hx => hm x (List.mem_cons_of_mem f hx)
    simp only [List.cons_append, closeLoops, hf, if_pos, specPopAll,
      specWrapLoop, MakeBlockDoLoop]
    exact ih _ hfs

/-- C1: when the scan meets a statement carrying label `L` while one
or more pending label DO loop headers requested `L`, the pending
loops are popped innermost first, stopping at the first pending loop
whose requested label is not `L`; each popped loop's statements after
its header up to and including the terminal position are wrapped into
a single block DO construct (name and loop control preserved, no
label) placed at the header position, per `specPopAll`. -/
theorem step_pops_pending_loops_at_label
    (out : Block) (matched rest : List PendingLoop) (L : Label)
    (src : Nat) (a : ActionStmt) (hL : 0 < L)
    (hm : ∀ f ∈ matched, f.doStmt.label = L)
    (hr : ∀ g gs, rest = g :: gs → g.doStmt.label ≠ L) :
    canonicalizeStep ⟨out, matched ++ rest⟩
        (.executable (.action (some L) src a)) =
      .ok (pushStmt ⟨out, rest⟩
        (specPopAll (.executable (.action (some L) src a)) matched)) := by
  have h := closeLoops_spec L out
    (.executable (.action (some L) src a)) matched rest hm hr
  simp [canonicalizeStep, endDoCheck, GetLabelDoLoopLabel, ReplaceEndDoStmt,
    GetPossibleLoopEndLabel, hL, h]

/-- Witness for C1: one pending loop requesting label 10 with one
accumulated body statement, closed by a labeled CONTINUE. -/
theorem step_pops_pending_loops_at_label_witness :
    canonicalizeStep ⟨[], [⟨none, 0, ⟨some "outer", 10, some 1⟩, [exStmt]⟩]⟩
        (.executable (.action (some 10) 4 .continueStmt)) =
      .ok (pushStmt ⟨[], []⟩
        (specPopAll (.executable (.action (some 10) 4 .continueStmt))
          [⟨none, 0, ⟨some "outer", 10, some 1⟩, [exStmt]⟩])) :=
  step_pops_pending_loops_at_label []
    [⟨none, 0, ⟨some "outer", 10, some 1⟩, [exStmt]⟩] [] 10 4
    .continueStmt (by decide) (by decide) (fun g gs h => List.noConfusion h)

/-- C9: a block-structured DO construct whose own END DO statement
carries label `L` also acts as a terminal for the pending label DO
loops requesting `L`: they are popped and converted exactly as for a
labeled statement, and the whole DO construct ends up included at the
end of each extracted loop body (it is the `terminal` of
`specPopAll`), although it is neither a bare END DO nor a labeled
action statement. -/
theorem step_doconstruct_end_label_terminates
    (out : Block) (matched rest : List PendingLoop) (L : Label)
    (d : DoConstruct) (hL : 0 < L) (hd : d.endLabel = some L)
    (hm : ∀ f ∈ matched, f.doStmt.label = L)
    (hr : ∀ g gs, rest = g :: gs → g.doStmt.label ≠ L) :
    canonicalizeStep ⟨out, matched ++ rest⟩ (.executable (.doConstr d)) =
      .ok (pushStmt ⟨out, rest⟩
        (specPopAll (.executable (.doConstr d)) matched)) := by
  have h := closeLoops_spec L out (.executable (.doConstr d)) matched rest hm hr
  simp [canonicalizeStep, endDoCheck, GetLabelDoLoopLabel, ReplaceEndDoStmt,
    GetPossibleLoopEndLabel, hd, hL, h]

/-- Witness for C9: a DO construct with END DO label 10 closes a
pending loop requesting 10. -/
theorem step_doconstruct_end_label_terminates_witness :
    canonicalizeStep ⟨[], [⟨none, 0, ⟨some "outer", 10, some 1⟩, [exStmt]⟩]⟩
        (.executable (.doConstr (.mk none 0 ⟨none, none⟩ [] (some 10) 0 ⟨none⟩))) =
      .ok (pushStmt ⟨[], []⟩
        (specPopAll
          (.executable (.doConstr (.mk none 0 ⟨none, none⟩ [] (some 10) 0 ⟨none⟩)))
          [⟨none, 0, ⟨some "outer", 10, some 1⟩, [exStmt]⟩])) :=
  step_doconstruct_end_label_terminates []
    [⟨none, 0, ⟨some "outer", 10, some 1⟩, [exStmt]⟩] [] 10
    (.mk none 0 ⟨none, none⟩ [] (some 10) 0 ⟨none⟩) (by decide) rfl
    (by decide) (fun g gs h => List.noConfusion h)

/-- C3: when pending label DO loops remain stacked after the full
left-to-right pass over a block, the pass is fatal: it produces no
output block and dies with a diagnostic carrying the number of loops
still stacked and the topmost (innermost) pending requested label. -/
theorem leftover_pending_loops_die
    (b : Block) (st : CanonState) (f : PendingLoop)
    (rest : List PendingLoop)
    (haux : canonicalizeBlockAux ⟨[], []⟩ b = .ok st)
    (hp : st.pending = f :: rest) :
    canonicalizeBlock b =
        .error (.loopsRemainStacked (rest.length + 1) f.doStmt.label) ∧
      ∀ b₂, canonicalizeBlock b ≠ .ok b₂ := by
  unfold canonicalizeBlock
  rw [haux]
  simp [hp]

/-- Witness for C3: a lone label DO header requesting 10 is never
terminated; the pass dies reporting 1 stacked loop, topmost label 10. -/
theorem leftover_pending_loops_die_witness :
    canonicalizeBlock [exHeader10] = .error (.loopsRemainStacked 1 10) :=
  (leftover_pending_loops_die [exHeader10]
    ⟨[], [⟨none, 0, ⟨some "outer", 10, some 1⟩, []⟩]⟩
    ⟨none, 0, ⟨some "outer", 10, some 1⟩, []⟩ [] rfl rfl).1

/-- C4 counterexample: a bare END DO carrying label 10 in a block with
no pending loop is not left untouched — the pass fails the
`CHECK(!pendingDoLoopStack.empty())` consistency check (after having
rewritten the statement to a labeled CONTINUE), so it neither
preserves the block nor succeeds. -/
theorem bare_enddo_unmatched_not_untouched :
    canonicalizeBlock [exEndDo10] = .error .checkPendingNonEmpty ∧
      canonicalizeBlock [exEndDo10] ≠ .ok [exEndDo10] := by
  refine ⟨rfl, fun h => ?_⟩
  rw [show canonicalizeBlock [exEndDo10] = .error .checkPendingNonEmpty
    from rfl] at h
  exact Except.noConfusion h

/-- C4 (amended): a bare END DO whose label matches no pending loop is
not tolerated: with an empty pending stack the pass fails
`CHECK(!pendingDoLoopStack.empty())`, and with a mismatching topmost
pending label it fails `CHECK(endDoLabel == ...)` — in both cases
after rewriting the statement to a labeled CONTINUE.  Only a labeled
ordinary action statement with no pending loop is left untouched as an
ordinary action statement without failure. -/
theorem bare_enddo_unmatched_check_fails
    (out : Block) (L : Label) (src : Nat) (nm : Option Name)
    (hL : 0 < L) :
    canonicalizeStep ⟨out, []⟩
        (.executable (.endDoStmt (some L) src ⟨nm⟩)) =
        .error .checkPendingNonEmpty ∧
      (∀ f rest, f.doStmt.label ≠ L →
        canonicalizeStep ⟨out, f :: rest⟩
            (.executable (.endDoStmt (some L) src ⟨nm⟩)) =
          .error .checkTopLabelMatch) ∧
      ∀ a, canonicalizeStep ⟨out, []⟩
          (.executable (.action (some L) src a)) =
        .ok ⟨out ++ [.executable (.action (some L) src a)], []⟩ := by
  refine ⟨?_, ?_, ?_⟩
  · simp [canonicalizeStep, endDoCheck, GetLabelDoLoopLabel, ReplaceEndDoStmt, hL]
  · intro f rest hne
    have hne₂ : ¬(L = f.doStmt.label) := fun h => hne h.symm
    simp [canonicalizeStep, endDoCheck, GetLabelDoLoopLabel, ReplaceEndDoStmt, hL, hne₂]
  · intro a
    simp [canonicalizeStep, endDoCheck, GetLabelDoLoopLabel, ReplaceEndDoStmt,
      GetPossibleLoopEndLabel, hL, closeLoops]

/-- Witness for the amended C4: label 10, empty pending stack. -/
theorem bare_enddo_unmatched_check_fails_witness :
    canonicalizeStep ⟨[], []⟩
        (.executable (.endDoStmt (some 10) 4 ⟨none⟩)) =
      .error .checkPendingNonEmpty :=
  (bare_enddo_unmatched_check_fails [] 10 4 none (by decide)).1

/-- With no pending loop, the scan appends a canonical (non-label-DO,
non-bare-END-DO) construct to the finished prefix unchanged. -/
theorem canonicalizeStep_canonical (out : Block)
    (e : ExecutionPartConstruct) (he : isCanonicalEPC e = true) :
    canonicalizeStep ⟨out, []⟩ e = .ok ⟨out ++ [e], []⟩ := by
  match e with
  | .otherPart t =>
    simp [canonicalizeStep, GetLabelDoLoopLabel, pushStmt]
  | .executable c =>
    match c with
    | .action lab src a =>
      match lab with
      | none =>
        simp [canonicalizeStep, endDoCheck, GetLabelDoLoopLabel, ReplaceEndDoStmt,
          GetPossibleLoopEndLabel, pushStmt]
      | some l =>
        by_cases hl : 0 < l
        · simp [canonicalizeStep, endDoCheck, GetLabelDoLoopLabel, ReplaceEndDoStmt,
            GetPossibleLoopEndLabel, hl, closeLoops]
        · simp [canonicalizeStep, endDoCheck, GetLabelDoLoopLabel, ReplaceEndDoStmt,
            GetPossibleLoopEndLabel, hl, pushStmt]
    | .doConstr (.mk dl ds dst body el es est) =>
      match el with
      | none =>
        simp [canonicalizeStep, endDoCheck, GetLabelDoLoopLabel, ReplaceEndDoStmt,
          GetPossibleLoopEndLabel, DoConstruct.endLabel, pushStmt]
      | some l =>
        by_cases hl : 0 < l
        · simp [canonicalizeStep, endDoCheck, GetLabelDoLoopLabel, ReplaceEndDoStmt,
            GetPossibleLoopEndLabel, DoConstruct.endLabel, hl, closeLoops]
        · simp [canonicalizeStep, endDoCheck, GetLabelDoLoopLabel, ReplaceEndDoStmt,
            GetPossibleLoopEndLabel, DoConstruct.endLabel, hl, pushStmt]
    | .otherConstruct t =>
      simp [canonicalizeStep, endDoCheck, GetLabelDoLoopLabel, ReplaceEndDoStmt,
        GetPossibleLoopEndLabel, pushStmt]
    | .labelDoStmt lab src s => simp [isCanonicalEPC, isCanonicalEC] at he
    | .endDoStmt lab src s => simp [isCanonicalEPC, isCanonicalEC] at he

/-- The scan over a block whose top-level sequence is canonical leaves
every statement in place. -/
theorem canonicalizeBlockAux_canonical (b : Block) (out : Block)
    (hb : isCanonicalList b = true) :
    canonicalizeBlockAux ⟨out, []⟩ b = .ok ⟨out ++ b, []⟩ := by
  induction b generalizing out with
  | nil => simp [canonicalizeBlockAux]
  | cons e rest ih =>
    have he : isCanonicalEPC e = true := by
      have := hb
      simp [isCanonicalList, Bool.and_eq_true] at this
      exact this.1
    have hrest : isCanonicalList rest = true := by
      have := hb
      simp [isCanonicalList, Bool.and_eq_true] at this
      exact this.2
    rw [canonicalizeBlockAux, canonicalizeStep_canonical out e he]
    dsimp only
    rw [ih (out ++ [e]) hrest]
    simp

/-- The `Post` scan leaves a block with a canonical top-level sequence
unchanged. -/
theorem canonicalizeBlock_canonical (b : Block)
    (hb : isCanonicalList b = true) :
    canonicalizeBlock b = .ok b := by
  unfold canonicalizeBlock
  rw [canonicalizeBlockAux_canonical b [] hb]
  simp

mutual

/-- The bottom-up walk leaves a canonical construct unchanged. -/
theorem canonicalizeDeepEPC_canonical :
    ∀ e, isCanonicalEPC e = true → canonicalizeDeepEPC e = .ok e
  | .executable c, h => by
    have hc : isCanonicalEC c = true := by
      simpa [isCanonicalEPC] using h
    rw [canonicalizeDeepEPC, canonicalizeDeepEC_canonical c hc]
  | .otherPart t, _ => rfl

/-- The bottom-up walk leaves a canonical executable construct
unchanged. -/
theorem canonicalizeDeepEC_canonical :
    ∀ c, isCanonicalEC c = true → canonicalizeDeepEC c = .ok c
  | .action lab src a, _ => rfl
  | .doConstr (.mk dl ds dst body el es est), h => by
    have hbody : isCanonicalList body = true := by
      simpa [isCanonicalEC] using h
    rw [canonicalizeDeepEC, canonicalizeDeepList_canonical body hbody]
    dsimp only
    rw [canonicalizeBlock_canonical body hbody]
  | .labelDoStmt lab src s, h => by simp [isCanonicalEC] at h
  | .endDoStmt lab src s, h => by simp [isCanonicalEC] at h
  | .otherConstruct t, _ => rfl

/-- The bottom-up walk leaves a canonical statement list unchanged. -/
theorem canonicalizeDeepList_canonical :
    ∀ l, isCanonicalList l = true → canonicalizeDeepList l = .ok l
  | [], _ => rfl
  | e :: rest, h => by
    have he : isCanonicalEPC e = true := by
      have := h
      simp [isCanonicalList, Bool.and_eq_true] at this
      exact this.1
    have hrest : isCanonicalList rest = true := by
      have := h
      simp [isCanonicalList, Bool.and_eq_true] at this
      exact this.2
    rw [canonicalizeDeepList, canonicalizeDeepEPC_canonical e he]
    rw [canonicalizeDeepList_canonical rest hrest]

end

/-- C5: running the canonicalizer over a tree that is already
canonical — no legacy label DO statement and no bare END DO anywhere —
returns the structurally identical tree, and hence running it twice is
the same as running it once. -/
theorem canonical_tree_unchanged (b : Block)
    (hb : isCanonicalList b = true) :
    canonicalizeDeepBlock b = .ok b ∧
      (canonicalizeDeepBlock b).bind canonicalizeDeepBlock =
        canonicalizeDeepBlock b := by
  have h : canonicalizeDeepBlock b = .ok b := by
    unfold canonicalizeDeepBlock
    rw [canonicalizeDeepList_canonical b hb]
    exact canonicalizeBlock_canonical b hb
  refine ⟨h, ?_⟩
  rw [h]
  simpa using h

/-- Witness for C5: a canonical block of two action statements and a
block DO construct is left unchanged. -/
theorem canonical_tree_unchanged_witness :
    canonicalizeDeepBlock
        [exStmt, exCont10,
         .executable (.doConstr (.mk none 0 ⟨none, none⟩ [exStmt] none 0 ⟨none⟩))] =
      .ok [exStmt, exCont10,
         .executable (.doConstr (.mk none 0 ⟨none, none⟩ [exStmt] none 0 ⟨none⟩))] :=
  (canonical_tree_unchanged _ (by decide)).1

/-- Label definedness distributes over list concatenation. -/
theorem labelDefinedInList_append (L : Label)
    (xs ys : List ExecutionPartConstruct) :
    labelDefinedInList L (xs ++ ys) =
      (labelDefinedInList L xs || labelDefinedInList L ys) := by
  induction xs with
  | nil => simp [labelDefinedInList]
  | cons e rest ih => simp [labelDefinedInList, ih, Bool.or_assoc]

/-- Appending a statement at the scan position keeps every label
already defined in the state and adds those defined on the
statement. -/
theorem pushStmt_defined (L : Label) (st : CanonState)
    (e : ExecutionPartConstruct)
    (h : labelDefinedInState L st = true ∨ labelDefinedInEPC L e = true) :
    labelDefinedInState L (pushStmt st e) = true := by
  match st with
  | ⟨out, pending⟩ =>
    match pending with
    | [] =>
      simp [pushStmt, labelDefinedInState, labelDefinedInList_append,
        labelDefinedInList] at h ⊢
      tauto
    | f :: rest =>
      simp [pushStmt, labelDefinedInState, labelDefinedInList_append,
        labelDefinedInList, List.any_cons] at h ⊢
      tauto

/-- The conversion loop keeps every label defined in the finished
prefix, on the construct at the scan position, or in any pending
body. -/
theorem closeLoops_defined (L lab : Label) (out : Block)
    (e : ExecutionPartConstruct) (pending : List PendingLoop)
    (h : labelDefinedInList L out = true ∨ labelDefinedInEPC L e = true ∨
         ∃ f ∈ pending, labelDefinedInList L f.body = true) :
    labelDefinedInState L
      ⟨(closeLoops lab out e pending).1, (closeLoops lab out e pending).2⟩ =
      true := by
  induction pending generalizing e with
  | nil =>
    simp [closeLoops, labelDefinedInState, labelDefinedInList_append,
      labelDefinedInList] at h ⊢
    tauto
  | cons f rest ih =>
    by_cases hf : f.doStmt.label = lab
    · rw [closeLoops, if_pos hf]
      apply ih
      simp [labelDefinedInEPC, labelDefinedInEC, MakeBlockDoLoop,
        labelDefinedInList_append, labelDefinedInList] at h ⊢
      tauto
    · rw [closeLoops, if_neg hf]
      simp [labelDefinedInState, labelDefinedInList_append,
        labelDefinedInList, List.any_cons] at h ⊢
      tauto

/-- Every successful scan step yields a state of one of four shapes:
a pushed empty-bodied pending loop, a conversion-loop result, a plain
append at the scan position, or (in a vacuous match arm) the unchanged
state. -/
theorem canonicalizeStep_ok_shape (st st₂ : CanonState)
    (e : ExecutionPartConstruct)
    (h : canonicalizeStep st e = .ok st₂) :
    (∃ f : PendingLoop, f.body = [] ∧ st₂ = ⟨st.out, f :: st.pending⟩) ∨
      (∃ lab e₂, st₂ = ⟨(closeLoops lab st.out e₂ st.pending).1,
        (closeLoops lab st.out e₂ st.pending).2⟩) ∨
      (∃ e₂, st₂ = pushStmt st e₂) ∨ st₂ = st := by
  unfold canonicalizeStep at h
  split at h
  · split at h
    · cases h
      exact Or.inl ⟨⟨_, _, _, []⟩, rfl, rfl⟩
    · cases h
      exact Or.inr (Or.inr (Or.inr rfl))
  · split at h
    · rename_i c
      split at h
      · exact Except.noConfusion h
      · split at h
        · exact Except.noConfusion h
        · split at h
          · cases h
            exact Or.inr (Or.inl ⟨_, _, rfl⟩)
          · cases h
            exact Or.inr (Or.inr (Or.inl ⟨_, rfl⟩))
    · cases h
      exact Or.inr (Or.inr (Or.inl ⟨_, rfl⟩))

/-- A successful scan step never loses a defined label. -/
theorem canonicalizeStep_defined_mono (L : Label) (st st₂ : CanonState)
    (e : ExecutionPartConstruct)
    (hstep : canonicalizeStep st e = .ok st₂)
    (hdef : labelDefinedInState L st = true) :
    labelDefinedInState L st₂ = true := by
  rcases canonicalizeStep_ok_shape st st₂ e hstep with
    ⟨f, hb, rfl⟩ | ⟨lab, e₂, rfl⟩ | ⟨e₂, rfl⟩ | rfl
  · simp [labelDefinedInState, List.any_cons, hb, labelDefinedInList] at hdef ⊢
    tauto
  · apply closeLoops_defined
    simp [labelDefinedInState] at hdef
    tauto
  · exact pushStmt_defined L st e₂ (Or.inl hdef)
  · exact hdef

/-- A successful scan step over a bare END DO statement carrying label
`L` leaves `L` defined in the state: the statement is rewritten to a
labeled CONTINUE which stays in the block. -/
theorem canonicalizeStep_enddo_defined (L : Label) (src : Nat)
    (nm : Option Name) (st st₂ : CanonState)
    (hstep : canonicalizeStep st
      (.executable (.endDoStmt (some L) src ⟨nm⟩)) = .ok st₂) :
    labelDefinedInState L st₂ = true := by
  unfold canonicalizeStep at hstep
  rw [if_neg (by simp [GetLabelDoLoopLabel])] at hstep
  dsimp only at hstep
  by_cases hL : 0 < L
  · rw [show ReplaceEndDoStmt (.endDoStmt (some L) src ⟨nm⟩) =
      .ok (.action (some L) 0 .continueStmt, L) from by
        simp [ReplaceEndDoStmt, hL]] at hstep
    dsimp only at hstep
    cases hcheck : endDoCheck L st.pending with
    | error err =>
      rw [hcheck] at hstep
      exact Except.noConfusion hstep
    | ok u =>
      rw [hcheck] at hstep
      dsimp only at hstep
      rw [if_pos (show 0 < GetPossibleLoopEndLabel
        (.action (some L) 0 .continueStmt) from by
          simpa [GetPossibleLoopEndLabel] using hL)] at hstep
      cases hstep
      apply closeLoops_defined
      refine Or.inr (Or.inl ?_)
      simp [labelDefinedInEPC, labelDefinedInEC]
  · rw [show ReplaceEndDoStmt (.endDoStmt (some L) src ⟨nm⟩) =
      .error .checkLabelPositive from by simp [ReplaceEndDoStmt, hL]] at hstep
    exact Except.noConfusion hstep

/-- Through a whole scan, a label stays defined if it was defined in
the starting state or a bare END DO carrying it occurs in the
remaining statements. -/
theorem canonicalizeBlockAux_defined (L : Label) (src : Nat)
    (nm : Option Name) (b : Block) (st st₂ : CanonState)
    (haux : canonicalizeBlockAux st b = .ok st₂)
    (h : labelDefinedInState L st = true ∨
      (ExecutionPartConstruct.executable (.endDoStmt (some L) src ⟨nm⟩)) ∈ b) :
    labelDefinedInState L st₂ = true := by
  induction b generalizing st with
  | nil =>
    cases h with
    | inl hd =>
      rw [canonicalizeBlockAux] at haux
      cases haux
      exact hd
    | inr hm => cases hm
  | cons e rest ih =>
    rw [canonicalizeBlockAux] at haux
    cases hstep : canonicalizeStep st e with
    | error err =>
      rw [hstep] at haux
      exact Except.noConfusion haux
    | ok st₁ =>
      rw [hstep] at haux
      dsimp only at haux
      cases h with
      | inl hd =>
        exact ih st₁ haux
          (Or.inl (canonicalizeStep_defined_mono L st st₁ e hstep hd))
      | inr hm =>
        rcases List.mem_cons.mp hm with he | hm₂
        · rw [← he] at hstep
          exact ih st₁ haux
            (Or.inl (canonicalizeStep_enddo_defined L src nm st st₁ hstep))
        · exact ih st₁ haux (Or.inr hm₂)

/-- C2: for every legacy loop the canonicalizer converts, the terminal
label stays defined on some statement of the output block — the bare
END DO is rewritten in place to a CONTINUE keeping the label — while
the block DO construct produced by `MakeBlockDoLoop` carries no label
at all: neither on its DO statement nor on its terminal END DO. -/
theorem converted_loop_label_preserved
    (b b₂ : Block) (L : Label) (src : Nat) (nm : Option Name)
    (hmem : (ExecutionPartConstruct.executable
      (.endDoStmt (some L) src ⟨nm⟩)) ∈ b)
    (hok : canonicalizeBlock b = .ok b₂) :
    labelDefinedInList L b₂ = true ∧
      (∀ L₂ src₂ nm₂, 0 < L₂ →
        ReplaceEndDoStmt (.endDoStmt (some L₂) src₂ ⟨nm₂⟩) =
          .ok (.action (some L₂) 0 .continueStmt, L₂)) ∧
      ∀ f body, (MakeBlockDoLoop f body).doLabel = none ∧
        (MakeBlockDoLoop f body).endLabel = none ∧
        (MakeBlockDoLoop f body).endStmt = ⟨none⟩ := by
  refine ⟨?_, ?_, ?_⟩
  · unfold canonicalizeBlock at hok
    cases haux : canonicalizeBlockAux ⟨[], []⟩ b with
    | error err =>
      rw [haux] at hok
      exact Except.noConfusion hok
    | ok st =>
      rw [haux] at hok
      dsimp only at hok
      match hp : st.pending with
      | [] =>
        rw [hp] at hok
        cases hok
        have hd := canonicalizeBlockAux_defined L src nm b ⟨[], []⟩ st haux
          (Or.inr hmem)
        simpa [labelDefinedInState, hp] using hd
      | f :: rest =>
        rw [hp] at hok
        exact Except.noConfusion hok
  · intro L₂ src₂ nm₂ hL₂
    simp [ReplaceEndDoStmt, hL₂]
  · intro f body
    exact ⟨rfl, rfl, rfl⟩

/-- Witness for C2: converting `[exHeader10, exEndDo10]` keeps label
10 defined in the output (on the CONTINUE inside the new loop body). -/
theorem converted_loop_label_preserved_witness :
    labelDefinedInList 10 exConverted10 = true :=
  (converted_loop_label_preserved [exHeader10, exEndDo10] exConverted10
    10 4 none (List.mem_cons_of_mem _ (List.mem_cons_self _ _)) rfl).1

/-- C6: an unnamed EXIT whose nearest enclosing loop is a DO
CONCURRENT construct always draws at least one illegal-escape
diagnostic, whatever else encloses it: the resolved target is that
concurrent loop itself, and leaving even only it is forbidden. -/
theorem unnamed_exit_in_concurrent_diagnosed
    (stack : List Frame) (f : Frame)
    (hfind : stack.find? Frame.loopKind = some f)
    (hconc : f.kind = .doConcurrent) :
    ∃ n, exitCheck stack none = some n ∧ 0 < n := by
  induction stack with
  | nil => cases hfind
  | cons g rest ih =>
    by_cases hg : g.loopKind = true
    · rw [List.find?_cons_of_pos _ hg] at hfind
      cases hfind
      refine ⟨1, ?_, Nat.one_pos⟩
      rw [exitCheck, if_pos (by simpa [frameMatches] using hg)]
      simp [Frame.escapeRestricted, hconc]
    · rw [List.find?_cons_of_neg _ (by simpa using hg)] at hfind
      obtain ⟨n, hn, hpos⟩ := ih hfind
      refine ⟨n + (if g.escapeRestricted then 1 else 0), ?_, ?_⟩
      · rw [exitCheck,
          if_neg (by simpa [frameMatches] using hg), hn]
        rfl
      · exact Nat.lt_of_lt_of_le hpos (Nat.le_add_right n _)

/-- Witness for C6: the unnamed `exit` of `do_concurrent_test2`,
directly inside the concurrent loop `mydoc`. -/
theorem unnamed_exit_in_concurrent_diagnosed_witness :
    ∃ n, exitCheck test2Stack none = some n ∧ 0 < n :=
  unnamed_exit_in_concurrent_diagnosed test2Stack
    ⟨.doConcurrent, some "mydoc"⟩ rfl rfl

/-- C7 counterexample: at the `exit mytest4` of `do_concurrent_test4`,
whose transfer crosses two DO CONCURRENT boundaries, the checker emits
two illegal-escape diagnostics — matching the test's two consecutive
expected-error annotations on that one statement — not exactly one. -/
theorem nested_exit_one_diag_per_boundary_not_per_stmt :
    exitCheck test4Stack (some "mytest4") =
        some test4ExitMytest4ExpectedErrors ∧
      (test4Stack.filter Frame.escapeRestricted).length = 2 ∧
      test4ExitMytest4ExpectedErrors ≠ 1 := by
  refine ⟨rfl, rfl, by decide⟩

/-- C7 (amended): for a transfer statement whose target resolves at
depth `i`, the checker reports one illegal-escape diagnostic per
concurrent-loop boundary crossed — the number of escape-restricted
frames among the enclosing frames out to and including the target —
rather than a single diagnostic for the statement. -/
theorem exit_diagnostics_one_per_boundary
    (stack : List Frame) (target : Option Name) (i : Nat)
    (hres : resolveDepth stack target = some i) :
    exitCheck stack target =
      some ((stack.take (i + 1)).filter Frame.escapeRestricted).length := by
  induction stack generalizing i with
  | nil => cases hres
  | cons f rest ih =>
    by_cases hf : frameMatches target f = true
    · rw [resolveDepth, if_pos hf] at hres
      cases hres
      rw [exitCheck, if_pos hf]
      cases hesc : f.escapeRestricted <;>
        simp [List.filter_cons, hesc]
    · rw [resolveDepth, if_neg hf] at hres
      rw [exitCheck, if_neg hf]
      cases hrest : resolveDepth rest target with
      | none => rw [hrest] at hres; cases hres
      | some j =>
        rw [hrest] at hres
        cases hres
        rw [ih j hrest]
        cases hesc : f.escapeRestricted <;>
          simp [List.take_cons, List.filter_cons, hesc, Nat.add_comm]

/-- Witness for the amended C7: the `exit mytest4` of
`do_concurrent_test4` resolves at depth 2 and draws one diagnostic per
crossed concurrent boundary. -/
theorem exit_diagnostics_one_per_boundary_witness :
    exitCheck test4Stack (some "mytest4") =
      some ((test4Stack.take 3).filter Frame.escapeRestricted).length :=
  exit_diagnostics_one_per_boundary test4Stack (some "mytest4") 2 rfl

/-- C8 counterexample: for the one-line IF at source `exOuterIfSource`
whose action is itself a one-line IF, the single diagnostic is located
at `exInnerIfSource` — the source of the nested action statement
passed to `context_.Say(body.source, ...)` — which differs from the
outer conditional statement's own source. -/
theorem nested_if_diag_at_inner_source :
    checkIfStmtsInEC exOuterIfStmt = [⟨exInnerIfSource, ifMsg⟩] ∧
      exInnerIfSource ≠ exOuterIfSource := by
  exact ⟨rfl, by decide⟩

/-- C8 (amended): a one-line IF whose single action statement is
itself a one-line IF (whose own action is not again an IF) yields
exactly one diagnostic, located at the nested action statement — the
inner conditional — and a one-line IF whose action is a plain action
statement yields zero diagnostics. -/
theorem nested_if_exactly_one_diagnostic
    (cond bs : Nat) (lab : Option Label) (src : Nat) :
    (∀ ic ibs ibody, (∀ s, ibody ≠ ActionStmt.ifStmt s) →
      checkIfStmtsInEC (.action lab src
          (.ifStmt (.mk cond bs (.ifStmt (.mk ic ibs ibody))))) =
        [⟨bs, ifMsg⟩]) ∧
      ∀ a, (∀ s, a ≠ ActionStmt.ifStmt s) →
        checkIfStmtsInEC (.action lab src (.ifStmt (.mk cond bs a))) = [] := by
  constructor
  · intro ic ibs ibody hni
    match ibody with
    | .continueStmt => rfl
    | .otherAction t => rfl
    | .ifStmt s => exact absurd rfl (hni s)
  · intro a ha
    match a with
    | .continueStmt => rfl
    | .otherAction t => rfl
    | .ifStmt s => exact absurd rfl (ha s)

/-- Witness for the amended C8: the concrete nested pair yields one
diagnostic at the inner source; a plain CONTINUE action yields none. -/
theorem nested_if_exactly_one_diagnostic_witness :
    checkIfStmtsInEC (.action none 1
        (.ifStmt (.mk 7 2 (.ifStmt (.mk 6 5 (.otherAction 0)))))) =
        [⟨2, ifMsg⟩] ∧
      checkIfStmtsInEC (.action none 1 (.ifStmt (.mk 7 2 .continueStmt))) =
        [] :=
  ⟨(nested_if_exactly_one_diagnostic 7 2 none 1).1 6 5 (.otherAction 0)
      (fun _ h => ActionStmt.noConfusion h),
    (nested_if_exactly_one_diagnostic 7 2 none 1).2 .continueStmt
      (fun _ h => ActionStmt.noConfusion h)⟩

/-- C10 counterexample: the token sequence is not append-only —
after buffering one character and closing the token, the inline
`ReopenLastToken` member removes that stored token: the token count
drops from 1 back to 0 (and the class further declares `clear`,
`pop_back` and `RemoveLastToken`). -/
theorem token_buffer_not_append_only :
    SizeInTokens (CloseToken (PutNextTokenChar TokenSequence.empty 'a' 5))
        = 1 ∧
      SizeInTokens (ReopenLastToken (CloseToken
        (PutNextTokenChar TokenSequence.empty 'a' 5))) = 0 := by
  exact ⟨rfl, rfl⟩

/-- C10 (amended): the token-building operations only grow the buffer
— `PutNextTokenChar` appends one character and one provenance range
and leaves the token partition alone, `CloseToken` appends one token
start and leaves the characters alone — and the lookup operations are
pure functions of the state; but the buffer is not append-only:
`ReopenLastToken` undoes the latest `CloseToken`, removing the most
recently closed token from the partition (the characters remain). -/
theorem token_buffer_growth_and_reopen
    (ts : TokenSequence) (ch : Char) (p : Nat) :
    (PutNextTokenChar ts ch p).chars = ts.chars ++ [ch] ∧
      (PutNextTokenChar ts ch p).start = ts.start ∧
      (PutNextTokenChar ts ch p).provenances = ts.provenances ++ [(p, 1)] ∧
      (CloseToken ts).chars = ts.chars ∧
      (CloseToken ts).start = ts.start ++ [ts.nextStart] ∧
      SizeInTokens (CloseToken ts) = SizeInTokens ts + 1 ∧
      (ReopenLastToken (CloseToken ts)).start = ts.start ∧
      (ReopenLastToken (CloseToken ts)).chars = ts.chars := by
  refine ⟨rfl, rfl, rfl, rfl, rfl, ?_, ?_, ?_⟩
  · simp [SizeInTokens, CloseToken]
  · simp [ReopenLastToken, CloseToken]
  · simp [ReopenLastToken, CloseToken]

end F18
